import Mathlib

/-!
Verification development for the gemini-cli edit/analyze command core.

The embedding covers, from the repository source:
- the JSON value model and a model of the JavaScript JSON.parse function;
- the response parsers of the edit flow and the analysis flow;
- the suggestion validator/filter;
- the safe line-range applier applyEdits;
- the per-file analysis and the batch loop of the directory aggregator;
- the summary aggregation of displayResults;
- the filesystem-event trace of handleEditCommand.
-/

namespace GeminiCli

/-- The opening curly brace character, written via its code point. -/
def lbrace : Char := Char.ofNat 123

/-- The closing curly brace character, written via its code point. -/
def rbrace : Char := Char.ofNat 125

/-- The backquote character, written via its code point. -/
def bquote : Char := Char.ofNat 96

/-- JSON values as produced by the JavaScript JSON.parse. Numbers are
modelled as exact rationals (JavaScript uses binary floating point; every
numeric literal appearing in the claims is a small integer, which both
representations treat exactly). -/
inductive Json where
  | null : Json
  | bool (b : Bool) : Json
  | num (q : Rat) : Json
  | str (s : String) : Json
  | arr (elems : List Json) : Json
  | obj (fields : List (String × Json)) : Json
  deriving Repr

/-- JSON insignificant whitespace characters (space, tab, line feed, carriage return). -/
def isJsonWs (c : Char) : Bool :=
  c = ' ' || c = '\t' || c = '\n' || c = '\r'

/-- Drop leading JSON whitespace. -/
def skipWs (cs : List Char) : List Char :=
  cs.dropWhile isJsonWs

/-- Model of the JavaScript String trim for the whitespace forms that
occur here (space, tab, line feed, carriage return). -/
def jsTrim (s : String) : String :=
  String.mk (((s.data.dropWhile isJsonWs).reverse.dropWhile isJsonWs).reverse)

/-- Numeric value of a decimal digit character. -/
def digitVal (c : Char) : Nat := c.toNat - 48

/-- Value of a list of decimal digit characters read most significant first. -/
def digitsToNat (ds : List Char) : Nat :=
  ds.foldl (fun a c => a * 10 + digitVal c) 0

/-- Numeric value of a hexadecimal digit character. -/
def hexVal (c : Char) : Nat :=
  if '0' ≤ c ∧ c ≤ '9' then c.toNat - 48
  else if 'a' ≤ c ∧ c ≤ 'f' then c.toNat - 87
  else if 'A' ≤ c ∧ c ≤ 'F' then c.toNat - 55
  else 0

/-- Whether a character is a hexadecimal digit. -/
def isHexDigit (c : Char) : Bool :=
  ('0' ≤ c && c ≤ '9') || ('a' ≤ c && c ≤ 'f') || ('A' ≤ c && c ≤ 'F')

/-- Parse the body of a JSON string after its opening quote, handling the
JSON escape sequences; returns the decoded characters and the remaining
input. Fuel bounds the recursion; every step consumes input, so a fuel of
the input length suffices. -/
def parseStringBody : Nat → List Char → Option (List Char × List Char)
  | 0, _ => none
  | _, [] => none
  | fuel + 1, c :: rest =>
    if c = '"' then some ([], rest)
    else if c = '\\' then
      match rest with
      | [] => none
      | e :: rest2 =>
        if e = 'u' then
          match rest2 with
          | h1 :: h2 :: h3 :: h4 :: rest3 =>
            if isHexDigit h1 && isHexDigit h2 && isHexDigit h3 && isHexDigit h4 then
              (parseStringBody fuel rest3).map (fun p =>
                (Char.ofNat (((hexVal h1 * 16 + hexVal h2) * 16 + hexVal h3) * 16 + hexVal h4) :: p.1, p.2))
            else none
          | _ => none
        else
          let dec : Option Char :=
            if e = '"' then some '"'
            else if e = '\\' then some '\\'
            else if e = '/' then some '/'
            else if e = 'b' then some (Char.ofNat 8)
            else if e = 'f' then some (Char.ofNat 12)
            else if e = 'n' then some '\n'
            else if e = 'r' then some '\r'
            else if e = 't' then some '\t'
            else none
          match dec with
          | none => none
          | some d => (parseStringBody fuel rest2).map (fun p => (d :: p.1, p.2))
    else (parseStringBody fuel rest).map (fun p => (c :: p.1, p.2))

/-- Parse a JSON number (sign, integer part with the no-leading-zero rule,
optional fraction, optional exponent) into an exact rational. -/
def parseNumber (cs : List Char) : Option (Rat × List Char) :=
  let signAndRest : Bool × List Char :=
    match cs with
    | '-' :: rest => (true, rest)
    | _ => (false, cs)
  let neg := signAndRest.1
  let cs1 := signAndRest.2
  let intPart : Option (List Char × List Char) :=
    match cs1 with
    | '0' :: rest =>
      match rest with
      | d :: _ => if d.isDigit then none else some (['0'], rest)
      | [] => some (['0'], [])
    | d :: _ =>
      if d.isDigit then
        some (cs1.takeWhile Char.isDigit, cs1.dropWhile Char.isDigit)
      else none
    | [] => none
  match intPart with
  | none => none
  | some (ids, cs2) =>
    let fracPart : Option (List Char × List Char) :=
      match cs2 with
      | '.' :: rest =>
        let fd := rest.takeWhile Char.isDigit
        if fd = [] then none else some (fd, rest.dropWhile Char.isDigit)
      | _ => some ([], cs2)
    match fracPart with
    | none => none
    | some (fds, cs3) =>
      let expPart : Option (Int × List Char) :=
        match cs3 with
        | e :: rest =>
          if e = 'e' ∨ e = 'E' then
            let signRest : Bool × List Char :=
              match rest with
              | '+' :: r => (false, r)
              | '-' :: r => (true, r)
              | _ => (false, rest)
            let eds := signRest.2.takeWhile Char.isDigit
            if eds = [] then none
            else
              let ev : Int := digitsToNat eds
              some (if signRest.1 then -ev else ev, signRest.2.dropWhile Char.isDigit)
          else some (0, cs3)
        | [] => some (0, [])
      match expPart with
      | none => none
      | some (ex, cs4) =>
        let base : Rat :=
          if fds = [] ∧ ex = 0 then (digitsToNat ids : Rat)
          else if 0 ≤ ex then
            ((digitsToNat ids : Rat) + (digitsToNat fds : Rat) / ((10 : Rat) ^ fds.length)) *
              (10 : Rat) ^ ex.toNat
          else
            ((digitsToNat ids : Rat) + (digitsToNat fds : Rat) / ((10 : Rat) ^ fds.length)) /
              (10 : Rat) ^ (-ex).toNat
        some ((if neg then -base else base), cs4)

/-- Record a parsed object field: a repeated key overwrites the earlier
value in place, matching JSON.parse. -/
def insertField : List (String × Json) → String → Json → List (String × Json)
  | [], k, v => [(k, v)]
  | (k0, v0) :: rest, k, v =>
    if k0 = k then (k, v) :: rest else (k0, v0) :: insertField rest k v

mutual

/-- Parse one JSON value from the input (leading whitespace allowed),
returning it with the remaining input. Fuel bounds the recursion depth and
element loops; `jsonParse` supplies ample fuel. -/
def parseValue : Nat → List Char → Option (Json × List Char)
  | 0, _ => none
  | fuel + 1, cs =>
    match skipWs cs with
    | [] => none
    | c :: rest =>
      if c = lbrace then parseMembersStart fuel rest
      else if c = '[' then parseElemsStart fuel rest
      else if c = '"' then
        (parseStringBody fuel rest).map (fun p => (Json.str (String.mk p.1), p.2))
      else if c = 't' then
        if ['r', 'u', 'e'].isPrefixOf rest then some (Json.bool true, rest.drop 3) else none
      else if c = 'f' then
        if ['a', 'l', 's', 'e'].isPrefixOf rest then some (Json.bool false, rest.drop 4) else none
      else if c = 'n' then
        if ['u', 'l', 'l'].isPrefixOf rest then some (Json.null, rest.drop 3) else none
      else
        (parseNumber (c :: rest)).map (fun p => (Json.num p.1, p.2))

/-- Parse the inside of a JSON object, just after its opening brace. -/
def parseMembersStart : Nat → List Char → Option (Json × List Char)
  | 0, _ => none
  | fuel + 1, cs =>
    match skipWs cs with
    | [] => none
    | c :: rest =>
      if c = rbrace then some (Json.obj [], rest)
      else parseMembers fuel (c :: rest) []

/-- Parse the members of a JSON object (at least one), accumulating fields.
A duplicated key keeps the position of its first occurrence and the value of
the last, as JSON.parse does. -/
def parseMembers : Nat → List Char → List (String × Json) → Option (Json × List Char)
  | 0, _, _ => none
  | fuel + 1, cs, acc =>
    match skipWs cs with
    | '"' :: rest =>
      match parseStringBody fuel rest with
      | none => none
      | some (key, rest2) =>
        match skipWs rest2 with
        | ':' :: rest3 =>
          match parseValue fuel rest3 with
          | none => none
          | some (v, rest4) =>
            let acc2 := insertField acc (String.mk key) v
            match skipWs rest4 with
            | ',' :: rest5 => parseMembers fuel rest5 acc2
            | c :: rest5 => if c = rbrace then some (Json.obj acc2, rest5) else none
            | [] => none
        | _ => none
    | _ => none

/-- Parse the inside of a JSON array, just after its opening bracket. -/
def parseElemsStart : Nat → List Char → Option (Json × List Char)
  | 0, _ => none
  | fuel + 1, cs =>
    match skipWs cs with
    | [] => none
    | c :: rest =>
      if c = ']' then some (Json.arr [], rest)
      else parseElems fuel (c :: rest) []

/-- Parse the elements of a JSON array (at least one), accumulating them in
reverse. -/
def parseElems : Nat → List Char → List Json → Option (Json × List Char)
  | 0, _, _ => none
  | fuel + 1, cs, acc =>
    match parseValue fuel cs with
    | none => none
    | some (v, rest) =>
      match skipWs rest with
      | ',' :: rest2 => parseElems fuel rest2 (v :: acc)
      | ']' :: rest2 => some (Json.arr (v :: acc).reverse, rest2)
      | _ => none

end

/-- Model of the JavaScript JSON.parse: parse one value and require only
whitespace after it; any violation of the grammar yields none (JSON.parse
would throw a SyntaxError). -/
def jsonParse (s : String) : Option Json :=
  match parseValue (s.length * 2 + 8) s.data with
  | some (v, rest) => if skipWs rest = [] then some v else none
  | none => none

/-! String utilities shared by the embedded functions. -/

/-- Split a character list at line-feed characters, the model of the
JavaScript split with separator a line feed: an empty input yields one
empty line, and a trailing separator yields a trailing empty line. -/
def splitNl : List Char → List (List Char)
  | [] => [[]]
  | c :: rest =>
    let r := splitNl rest
    if c = '\n' then [] :: r
    else
      match r with
      | h :: t => (c :: h) :: t
      | [] => [[c]]

/-- Join character lines with line-feed separators, the model of the
JavaScript join with a line-feed separator. -/
def joinNl : List (List Char) → List Char
  | [] => []
  | [l] => l
  | l :: ls => l ++ '\n' :: joinNl ls

/-- The line sequence of a file's content, as content.split of a line feed. -/
def splitLines (s : String) : List String :=
  (splitNl s.data).map String.mk

/-- Join lines back into content, as lines.join of a line feed. -/
def joinLines (ls : List String) : String :=
  String.mk (joinNl (ls.map String.data))

/-- The three-backquote fence. -/
def fenceChars : List Char := "```".data

/-- The fence followed by the json tag. -/
def fenceJsonChars : List Char := "```json".data

/-- Model of the global regex replacement removing code fences in the edit
flow: at each position, remove a json-tagged fence with its optional
trailing line feed, or a fence with its optional leading line feed,
preferring the alternatives in the order of the regex. -/
def stripFencesGo : Nat → List Char → List Char
  | 0, cs => cs
  | _ + 1, [] => []
  | fuel + 1, c :: rest =>
    if fenceJsonChars.isPrefixOf (c :: rest) then
      match (c :: rest).drop 7 with
      | '\n' :: rest2 => stripFencesGo fuel rest2
      | rest2 => stripFencesGo fuel rest2
    else if c = '\n' && fenceChars.isPrefixOf rest then
      stripFencesGo fuel (rest.drop 3)
    else if fenceChars.isPrefixOf (c :: rest) then
      stripFencesGo fuel ((c :: rest).drop 3)
    else c :: stripFencesGo fuel rest

/-- Remove Markdown code-fence markers as the edit flow's regex replacement
does. -/
def stripFences (s : String) : String :=
  String.mk (stripFencesGo (s.length + 1) s.data)

/-- Index of the first occurrence of a character, if any. -/
def firstIdxOf (cs : List Char) (c : Char) : Option Nat :=
  cs.findIdx? (fun x => x = c)

/-- Index of the last occurrence of a character, if any. -/
def lastIdxOf (cs : List Char) (c : Char) : Option Nat :=
  (cs.reverse.findIdx? (fun x => x = c)).map (fun i => cs.length - 1 - i)

/-- Model of matching the greedy brace regex of parseAnalysisResponse
against the response: the span from the first opening brace to the last
closing brace, provided the latter lies strictly after the former. -/
def greedyBraceMatch (s : String) : Option String :=
  match firstIdxOf s.data lbrace, lastIdxOf s.data rbrace with
  | some i, some j =>
    if i < j then some (String.mk ((s.data.drop i).take (j - i + 1))) else none
  | _, _ => none

/-- Scan for the end of the first balanced brace span, the input starting
at an opening brace; used only by the specification-side parser model. -/
def balancedGo : List Char → Nat → List Char → Option (List Char)
  | [], _, _ => none
  | c :: rest, depth, acc =>
    if c = lbrace then balancedGo rest (depth + 1) (c :: acc)
    else if c = rbrace then
      if depth = 1 then some (c :: acc).reverse
      else if depth = 0 then none
      else balancedGo rest (depth - 1) (c :: acc)
    else balancedGo rest depth (c :: acc)

/-- The first balanced brace span of a string, per the specification's
description of the retry step of the response parser. -/
def firstBalancedBraceSpan (s : String) : Option String :=
  match s.data.dropWhile (fun c => c ≠ lbrace) with
  | [] => none
  | tail => (balancedGo tail 0 []).map String.mk

/-! JavaScript value helpers: member access, truthiness and loose numeric
comparison, restricted to JSON-parsed values (which carry no methods or
custom conversions). -/

/-- Look up a field of an object field list. -/
def lookupField : List (String × Json) → String → Option Json
  | [], _ => none
  | (k0, v0) :: rest, k => if k0 = k then some v0 else lookupField rest k

/-- JavaScript member access on a possibly undefined value (none stands
for undefined): access on undefined or null throws a TypeError, objects
use their fields, strings and arrays expose their length, and any other
access yields undefined. -/
def jsMember (v : Option Json) (k : String) : Except Unit (Option Json) :=
  match v with
  | none => Except.error ()
  | some Json.null => Except.error ()
  | some (Json.obj fs) => Except.ok (lookupField fs k)
  | some (Json.str s) =>
    Except.ok (if k = "length" then some (Json.num (s.length : Rat)) else none)
  | some (Json.arr l) =>
    Except.ok (if k = "length" then some (Json.num (l.length : Rat)) else none)
  | some _ => Except.ok none

/-- JavaScript truthiness of a JSON-parsed value. -/
def jsTruthy : Json → Bool
  | Json.null => false
  | Json.bool b => b
  | Json.num q => decide (q ≠ 0)
  | Json.str s => decide (s ≠ "")
  | Json.arr _ => true
  | Json.obj _ => true

/-- The value if defined and truthy, otherwise the default, as the
JavaScript expression value-or-default. -/
def jsOrDefault (v : Option Json) (d : Json) : Json :=
  match v with
  | some x => if jsTruthy x then x else d
  | none => d

/-- Model of the JavaScript string-to-number conversion for the strings a
relational comparison can meet here: an empty or all-whitespace string is
zero, a finite decimal literal has its value, and anything else is NaN
(none). Hexadecimal and infinite forms are also mapped to none; they never
arise in this program's data. -/
def strToNum (s : String) : Option Rat :=
  let t := (s.data.dropWhile isJsonWs).reverse.dropWhile isJsonWs |>.reverse
  if t = [] then some 0
  else
    match parseNumber t with
    | some (q, []) => some q
    | _ =>
      match t with
      | '+' :: rest =>
        match parseNumber rest with
        | some (q, []) => some q
        | _ => none
      | _ => none

/-- Model of the JavaScript ToNumber conversion of a possibly undefined
JSON-parsed value, with none standing for NaN: undefined is NaN, null is
zero, booleans are zero or one, strings convert via `strToNum`, an empty
array is zero, a one-element array converts its element, and other arrays
and all objects are NaN. -/
def jsToNum (v : Option Json) : Option Rat :=
  match v with
  | none => none
  | some Json.null => some 0
  | some (Json.bool b) => some (if b then 1 else 0)
  | some (Json.num q) => some q
  | some (Json.str s) => strToNum s
  | some (Json.arr []) => some 0
  | some (Json.arr [Json.num q]) => some q
  | some (Json.arr [Json.str s]) => strToNum s
  | some (Json.arr [Json.null]) => some 0
  | some (Json.arr _) => none
  | some (Json.obj _) => none

/-- JavaScript loose comparison value `at least q`, false on NaN. -/
def jsGE (v : Option Json) (q : Rat) : Bool :=
  match jsToNum v with
  | some x => decide (q ≤ x)
  | none => false

/-- JavaScript loose comparison value `greater than q`, false on NaN. -/
def jsGT (v : Option Json) (q : Rat) : Bool :=
  match jsToNum v with
  | some x => decide (q < x)
  | none => false

/-! The edit flow, embedded from the file editor command source. -/

/-- One proposed textual change, per the EditSuggestion interface. Line
numbers and the confidence are JavaScript numbers; the program's own
arithmetic on them is integral, so they are embedded as integers. -/
structure EditSuggestion where
  originalLines : List String
  suggestedLines : List String
  startLine : Int
  endLine : Int
  reasoning : String
  confidence : Int
  deriving Repr, DecidableEq

/-- Result of analyzing one file for an edit request, per the FileAnalysis
interface of the editor command. -/
structure FileAnalysis where
  language : String
  complexity : Int
  suggestions : List EditSuggestion
  risks : List String
  dependencies : List String
  deriving Repr, DecidableEq

/-- Insert a suggestion into a list sorted by startLine descending,
after every element with a strictly greater startLine; with `sortDesc`
this is the stable descending sort the JavaScript sort performs with the
comparator subtracting startLines. -/
def insertDesc (s : EditSuggestion) : List EditSuggestion → List EditSuggestion
  | [] => [s]
  | t :: ts =>
    if s.startLine < t.startLine then t :: insertDesc s ts else s :: t :: ts

/-- Sort suggestions by startLine descending, stably, as the applier's
first step does on a copy of its input. -/
def sortDesc (l : List EditSuggestion) : List EditSuggestion :=
  l.foldr insertDesc []

/-- Model of the JavaScript Array splice for in-bounds arguments (its only
use here is guarded by the bounds check): delete `delCount` elements at
`start` and insert the items there. -/
def jsSplice (l : List String) (start delCount : Nat) (items : List String) : List String :=
  l.take start ++ items ++ l.drop (start + delCount)

/-- One iteration of the applier's loop: convert the one-based line range
to zero-based indices and splice the replacement in exactly when the range
fits the current sequence, otherwise leave the sequence unchanged. -/
def applyEditsStep (modifiedLines : List String) (s : EditSuggestion) : List String :=
  let startIdx := s.startLine - 1
  let endIdx := s.endLine - 1
  if 0 ≤ startIdx ∧ endIdx < (modifiedLines.length : Int) ∧ startIdx ≤ endIdx then
    jsSplice modifiedLines startIdx.toNat (endIdx - startIdx + 1).toNat s.suggestedLines
  else modifiedLines

/-- The line sequence after applying all suggestions, sorted by startLine
descending first. -/
def applyEditsLines (lines : List String) (suggestions : List EditSuggestion) : List String :=
  (sortDesc suggestions).foldl applyEditsStep lines

/-- The applier applyEdits: apply the suggestions to the line sequence and
join the result with line feeds. -/
def applyEdits (lines : List String) (suggestions : List EditSuggestion) : String :=
  joinLines (applyEditsLines lines suggestions)

/-- The language map of the editor command, keyed by lower-cased file
extension, with the generic fallback tag. -/
def getLanguageFromExtension (ext : String) : String :=
  let e := ext.toLower
  if e = ".js" then "javascript"
  else if e = ".jsx" then "javascript"
  else if e = ".ts" then "typescript"
  else if e = ".tsx" then "typescript"
  else if e = ".py" then "python"
  else if e = ".java" then "java"
  else if e = ".cpp" then "cpp"
  else if e = ".c" then "c"
  else if e = ".go" then "go"
  else if e = ".rs" then "rust"
  else if e = ".php" then "php"
  else if e = ".rb" then "ruby"
  else if e = ".cs" then "csharp"
  else if e = ".swift" then "swift"
  else if e = ".kt" then "kotlin"
  else if e = ".scala" then "scala"
  else if e = ".sh" then "bash"
  else if e = ".md" then "markdown"
  else if e = ".html" then "html"
  else if e = ".css" then "css"
  else if e = ".scss" then "scss"
  else if e = ".sass" then "sass"
  else if e = ".json" then "json"
  else if e = ".yaml" then "yaml"
  else if e = ".yml" then "yaml"
  else if e = ".xml" then "xml"
  else "text"

/-! The edit flow's response handling, embedded at the JSON level from
analyzeAndGenerateEdits: the function cleans the oracle text, parses it,
filters the suggestions in place and returns the parsed object; any
exception inside the try block is caught and turned into the minimal
fallback analysis. -/

/-- The minimal analysis returned by the catch of analyzeAndGenerateEdits,
as the JSON object the code builds. -/
def editFallback (language : String) : Json :=
  Json.obj
    [("language", Json.str language),
     ("complexity", Json.num 5),
     ("suggestions", Json.arr []),
     ("risks", Json.arr [Json.str "Analysis failed - manual review recommended"]),
     ("dependencies", Json.arr [])]

/-- The filter callback of the edit flow on one parsed suggestion value,
in the JavaScript evaluation order with short-circuiting: member access on
a null element or a missing line array throws (error), otherwise the three
conjuncts are evaluated loosely. -/
def suggestionPasses (s : Json) : Except Unit Bool := do
  let c ← jsMember (some s) "confidence"
  if jsGE c 70 then
    let ol ← jsMember (some s) "originalLines"
    let oln ← jsMember ol "length"
    if jsGT oln 0 then
      let sl ← jsMember (some s) "suggestedLines"
      let sln ← jsMember sl "length"
      return jsGT sln 0
    else return false
  else return false

/-- Filter a list of parsed suggestion values left to right, propagating a
thrown exception from the callback. -/
def filterSuggestionList : List Json → Except Unit (List Json)
  | [] => Except.ok []
  | s :: rest => do
    let keep ← suggestionPasses s
    let tail ← filterSuggestionList rest
    return (if keep then s :: tail else tail)

/-- The filter step applied to the suggestions member value: calling filter
on anything but an array throws a TypeError (error). -/
def filterSuggestions (v : Option Json) : Except Unit Json :=
  match v with
  | some (Json.arr l) => (filterSuggestionList l).map Json.arr
  | _ => Except.error ()

/-- JavaScript assignment of a field of an object, overwriting in place or
appending; assignment to a primitive is silently dropped in non-strict
code (that branch is unreachable at the call site). -/
def jsSetField (j : Json) (k : String) (v : Json) : Json :=
  match j with
  | Json.obj fs => Json.obj (insertField fs k v)
  | other => other

/-- The in-place filtering of the parsed object's suggestions member: the
member access (throwing on a parsed null) followed by the filter call
(throwing on anything but an array), any throw landing in the fallback. -/
def editParseStage2 (language : String) (parsed : Json) : Json :=
  match jsMember (some parsed) "suggestions" with
  | Except.error _ => editFallback language
  | Except.ok sv =>
    match filterSuggestions sv with
    | Except.error _ => editFallback language
    | Except.ok filtered => jsSetField parsed "suggestions" filtered

/-- Handling of a present oracle text: clean code fences and trim, parse
the whole cleaned text as JSON (no other extraction is attempted), and on
success filter the suggestions member in place. -/
def editParseText (language : String) (text : String) : Json :=
  match jsonParse (jsTrim (stripFences text)) with
  | none => editFallback language
  | some parsed => editParseStage2 language parsed

/-- Response handling of analyzeAndGenerateEdits from the oracle outcome
on: a failed call or missing text throws inside the try; otherwise the
text is handled by the parse-and-filter stage; every exception on the way
is caught and yields the minimal fallback analysis. -/
def analyzeEditResult (language : String) (outcome : Except Unit (Option String)) : Json :=
  match outcome with
  | Except.error _ => editFallback language
  | Except.ok none => editFallback language
  | Except.ok (some text) => editParseText language text

/-- The suggestion validator of the edit flow on well-typed suggestions
(the filter of analyzeAndGenerateEdits): keep a suggestion exactly when
its confidence is at least seventy and both line arrays are non-empty. -/
def validateSuggestions (l : List EditSuggestion) : List EditSuggestion :=
  l.filter (fun s =>
    decide (70 ≤ s.confidence) && !s.originalLines.isEmpty && !s.suggestedLines.isEmpty)

/-! The analysis flow, embedded from the analyze command source. -/

/-- Result of analyzing one file for quality review. The issue and
suggestion lists and the metrics are parsed JSON values: the source
assigns whatever the oracle's object carried (with defaults) without
shape validation, so the runtime values need not match the declared
interfaces. -/
structure AnalysisResult where
  file : String
  issues : Json
  suggestions : Json
  metrics : Json
  deriving Repr

/-- The default metrics object used when the parsed response carries no
truthy metrics member. -/
def defaultMetrics : Json :=
  Json.obj
    [("complexity", Json.num 5),
     ("maintainabilityIndex", Json.num 70),
     ("performance", Json.str "good"),
     ("security", Json.str "moderate")]

/-- The fallback analysis of parseAnalysisResponse when handling the
response throws: no issues, a single documentation suggestion at line one,
and neutral metrics. -/
def qualityFallback (filePath : String) : AnalysisResult :=
  { file := filePath
    issues := Json.arr []
    suggestions := Json.arr
      [Json.obj
        [("line", Json.num 1),
         ("type", Json.str "documentation"),
         ("description", Json.str "Consider adding comprehensive documentation for this code")]]
    metrics := defaultMetrics }

/-- Plain member read of a non-null parsed value: object fields, or
undefined for the members the code reads of any other value. -/
def jsonFieldOf (j : Json) (k : String) : Option Json :=
  match j with
  | Json.obj fs => lookupField fs k
  | _ => none

/-- The text parseAnalysisResponse hands to the JSON parse: the greedy
brace regex match when there is one, otherwise the whole response. -/
def qualityJsonText (response : String) : String :=
  match greedyBraceMatch response with
  | some m => m
  | none => response

/-- The response parser of the analyze command: extract the greedy brace
span (first opening brace to last closing brace) or, absent a match, use
the whole response; parse it as JSON; populate the result fields with
falsy members replaced by defaults. Member access on a parsed null throws
a TypeError inside the try, so it also lands in the fallback. -/
def parseAnalysisResponse (response : String) (filePath : String) : AnalysisResult :=
  match jsonParse (qualityJsonText response) with
  | none => qualityFallback filePath
  | some Json.null => qualityFallback filePath
  | some parsed =>
    { file := filePath
      issues := jsOrDefault (jsonFieldOf parsed "issues") (Json.arr [])
      suggestions := jsOrDefault (jsonFieldOf parsed "suggestions") (Json.arr [])
      metrics := jsOrDefault (jsonFieldOf parsed "metrics") defaultMetrics }

/-- The analyze command's copy of the extension-to-language map (no
lower-casing, fewer entries). -/
def getLanguageFromExtensionA (ext : String) : String :=
  if ext = ".ts" then "typescript"
  else if ext = ".tsx" then "typescript"
  else if ext = ".js" then "javascript"
  else if ext = ".jsx" then "javascript"
  else if ext = ".py" then "python"
  else if ext = ".java" then "java"
  else if ext = ".cpp" then "cpp"
  else if ext = ".c" then "c"
  else if ext = ".cs" then "csharp"
  else if ext = ".go" then "go"
  else if ext = ".rs" then "rust"
  else if ext = ".php" then "php"
  else if ext = ".rb" then "ruby"
  else "text"

/-- Model of the node path extname: the part of the basename from its last
dot, empty when there is no dot or the only dot leads the basename. -/
def extname (p : String) : String :=
  let base := (p.data.reverse.takeWhile (fun c => c ≠ '/')).reverse
  let afterDot := base.reverse.takeWhile (fun c => c ≠ '.')
  if afterDot.length = base.length then ""
  else if base.length = afterDot.length + 1 ∧ base.headD ' ' = '.' then ""
  else String.mk ('.' :: afterDot.reverse)

/-- The analysis prompt template of createAnalysisPrompt, embedded with
its interpolations. -/
def createAnalysisPrompt (code : String) (fileExt : String) (fullAnalysis : Bool) : String :=
  let language := getLanguageFromExtensionA fileExt
  "Analyze this " ++ language ++
  " code and provide a detailed assessment. Return your analysis in the following JSON format:\n\n\x7b\n  \"issues\": [\n    \x7b\n      \"line\": number,\n      \"column\": number,\n      \"severity\": \"error|warning|info\",\n      \"message\": \"description\",\n      \"type\": \"security|performance|maintainability|style|bug\"\n    \x7d\n  ],\n  \"suggestions\": [\n    \x7b\n      \"line\": number,\n      \"type\": \"optimization|refactor|documentation|test\",\n      \"description\": \"suggestion description\",\n      \"suggestedCode\": \"optional code suggestion\"\n    \x7d\n  ],\n  \"metrics\": \x7b\n    \"complexity\": number (1-10),\n    \"maintainabilityIndex\": number (0-100),\n    \"performance\": \"excellent|good|fair|poor\",\n    \"security\": \"secure|moderate|vulnerable\"\n  \x7d\n\x7d\n\nPlease analyze for:\n- Security vulnerabilities and best practices\n- Performance optimization opportunities\n- Code maintainability and readability\n- Potential bugs and error conditions\n- Style and convention adherence\n" ++
  (if fullAnalysis then "- Design patterns and architecture suggestions" else "") ++ "\n" ++
  (if fullAnalysis then "- Testing recommendations" else "") ++
  "\n\nCode to analyze:\n```" ++ language ++ "\n" ++ code ++ "\n```"

/-- The neutral result built by the catch of analyzeFile when the oracle
call (or anything else inside its try block) fails. -/
def neutralResult (filePath : String) : AnalysisResult :=
  { file := filePath
    issues := Json.arr []
    suggestions := Json.arr []
    metrics := Json.obj
      [("complexity", Json.num 0),
       ("maintainabilityIndex", Json.num 50),
       ("performance", Json.str "fair"),
       ("security", Json.str "moderate")] }

/-- Per-file analysis of analyzeFile over an injected filesystem (mapping
a path to its content when readable) and oracle (mapping the prompt to a
failure, a response without text, or a response text). The content read
happens before the try block: a read failure propagates as an error. The
try block covers the oracle call and the parse, so their failures become
the neutral result. -/
def analyzeFile (fsys : String → Option String) (oracle : String → Except Unit (Option String))
    (filePath : String) (fullAnalysis : Bool) : Except Unit AnalysisResult :=
  match fsys filePath with
  | none => Except.error ()
  | some content =>
    match oracle (createAnalysisPrompt content (extname filePath) fullAnalysis) with
    | Except.error _ => Except.ok (neutralResult filePath)
    | Except.ok none => Except.ok (neutralResult filePath)
    | Except.ok (some text) => Except.ok (parseAnalysisResponse text filePath)

/-- The batch loop of analyzeCodebase over the discovered file sequence:
each file's analysis is awaited in turn and its result collected; an
exception escaping analyzeFile aborts the loop and propagates. -/
def analyzeCodebase (fsys : String → Option String) (oracle : String → Except Unit (Option String))
    (fullAnalysis : Bool) : List String → Except Unit (List AnalysisResult)
  | [] => Except.ok []
  | f :: fs =>
    match analyzeFile fsys oracle f fullAnalysis with
    | Except.error e => Except.error e
    | Except.ok r =>
      match analyzeCodebase fsys oracle fullAnalysis fs with
      | Except.error e => Except.error e
      | Except.ok rs => Except.ok (r :: rs)

/-! The summary aggregation of displayResults. -/

/-- JavaScript length member of a parsed value: arrays and strings have
one, any other value gives undefined. -/
def jsLen (v : Json) : Option Nat :=
  match v with
  | Json.arr l => some l.length
  | Json.str s => some s.length
  | _ => none

/-- The count a result's issue or suggestion member contributes to its
running total: the loop adds the length only under a positive length
check, and a length of undefined fails that check. -/
def lenContribution (v : Json) : Nat :=
  match jsLen v with
  | some n => if 0 < n then n else 0
  | none => 0

/-- Numeric value a metrics member contributes to the reduce sum, with
none standing for NaN. JavaScript addition with a string operand would
concatenate instead; every metrics object this program itself constructs
is numeric, and the model conservatively maps any non-number member (and
the member access on a non-object) to NaN. -/
def metricContribution (m : Json) (k : String) : Option Rat :=
  match m with
  | Json.obj fs =>
    match lookupField fs k with
    | some (Json.num q) => some q
    | _ => none
  | _ => none

/-- NaN-propagating addition of JavaScript numbers. -/
def optAdd : Option Rat → Option Rat → Option Rat
  | some a, some b => some (a + b)
  | _, _ => none

/-- JavaScript division of a sum by a count, with none for NaN or an
infinite quotient: dividing by a zero count never yields a finite number. -/
def jsDivLen (a : Option Rat) (n : Nat) : Option Rat :=
  match a with
  | none => none
  | some x => if n = 0 then none else some (x / (n : Rat))

/-- The numbers displayResults reports after its per-file loop. -/
structure AnalysisSummary where
  filesAnalyzed : Nat
  totalIssues : Nat
  totalSuggestions : Nat
  avgComplexity : Option Rat
  avgMaintainability : Option Rat
  deriving Repr, DecidableEq

/-- The summary computation of displayResults: totals accumulated by the
per-file loop, and the averages of the two numeric metrics taken by
reducing over all results and dividing by the result count, unguarded
against an empty result list. -/
def displaySummary (results : List AnalysisResult) : AnalysisSummary :=
  let totalIssues := results.foldl (fun acc r => acc + lenContribution r.issues) 0
  let totalSuggestions := results.foldl (fun acc r => acc + lenContribution r.suggestions) 0
  let csum := results.foldl (fun acc r => optAdd acc (metricContribution r.metrics "complexity")) (some 0)
  let msum := results.foldl
    (fun acc r => optAdd acc (metricContribution r.metrics "maintainabilityIndex")) (some 0)
  { filesAnalyzed := results.length
    totalIssues := totalIssues
    totalSuggestions := totalSuggestions
    avgComplexity := jsDivLen csum results.length
    avgMaintainability := jsDivLen msum results.length }

/-! The edit command's effect sequence, embedded from handleEditCommand as
a trace of its external actions in program order. The oracle interaction of
analyzeAndGenerateEdits is one trace event whose outcome (the analysis the
call returns, suggestions already filtered) is injected as a parameter, as
is the answer of the interactive confirmation gate. -/

/-- External actions of the edit command, in program order. -/
inductive FsEvent where
  | readFile (p : String)
  | writeFile (p : String) (content : String)
  | oracleCall
  | confirmPrompt
  | exitProcess (code : Nat)
  deriving Repr, DecidableEq

/-- The options object of handleEditCommand; none models an absent field. -/
structure EditOptions where
  dryRun : Option Bool := none
  backup : Option Bool := none
  autoApply : Option Bool := none
  deriving Repr, DecidableEq

/-- The backup path built from the file path and the current timestamp. -/
def backupName (filePath now : String) : String :=
  filePath ++ ".backup." ++ now

/-- The actions of handleEditCommand after the oracle returned its
analysis: return early on no suggestions or on dry run, otherwise gate on
auto-apply or the interactive confirmation before overwriting the file
with the applied edits. -/
def editTail (filePath content : String) (opts : EditOptions) (analysis : FileAnalysis)
    (userAccepts : Bool) : List FsEvent :=
  if analysis.suggestions = [] then []
  else if opts.dryRun = some true then []
  else
    (if opts.autoApply = some true then [] else [FsEvent.confirmPrompt]) ++
    (if opts.autoApply = some true || userAccepts then
       [FsEvent.writeFile filePath (applyEdits (splitLines content) analysis.suggestions)]
     else [])

/-- The trace of handleEditCommand: exit when the file is inaccessible;
otherwise read the content, write the backup unless the backup option is
strictly false, consult the oracle, and continue with the post-analysis
actions. -/
def handleEditCommand (filePath : String) (fileContent : Option String) (opts : EditOptions)
    (now : String) (analysis : FileAnalysis) (userAccepts : Bool) : List FsEvent :=
  match fileContent with
  | none => [FsEvent.exitProcess 1]
  | some content =>
    [FsEvent.readFile filePath] ++
    (if opts.backup ≠ some false then [FsEvent.writeFile (backupName filePath now) content]
     else []) ++
    [FsEvent.oracleCall] ++
    editTail filePath content opts analysis userAccepts

/-! Specification-side definitions, written from the claims' words, to be
compared with the embedded functions. -/

/-- One replacement step as the specification words it: with zero-based
indices in bounds of the current sequence, replace the inclusive index
range by the suggested lines; otherwise leave the sequence unchanged. -/
def claimReplaceStep (cur : List String) (s : EditSuggestion) : List String :=
  let startIdx := s.startLine - 1
  let endIdx := s.endLine - 1
  if 0 ≤ startIdx ∧ startIdx ≤ endIdx ∧ endIdx < (cur.length : Int) then
    cur.take startIdx.toNat ++ s.suggestedLines ++ cur.drop (endIdx.toNat + 1)
  else cur

/-- Whether a parsed value has the shape of a FileAnalysis object required
by the data model: a string language, a numeric complexity, and array
suggestions, risks and dependencies. -/
def wellFormedFileAnalysis (j : Json) : Bool :=
  match j with
  | Json.obj _ =>
    (match jsonFieldOf j "language" with | some (Json.str _) => true | _ => false) &&
    (match jsonFieldOf j "complexity" with | some (Json.num _) => true | _ => false) &&
    (match jsonFieldOf j "suggestions" with | some (Json.arr _) => true | _ => false) &&
    (match jsonFieldOf j "risks" with | some (Json.arr _) => true | _ => false) &&
    (match jsonFieldOf j "dependencies" with | some (Json.arr _) => true | _ => false)
  | _ => false

/-- The extraction algorithm as the claim words it: strip code-fence
wrapping, try the whole text as JSON, and on failure parse the first
balanced brace span instead. -/
def threeStepExtract (text : String) : Option Json :=
  let cleaned := jsTrim (stripFences text)
  match jsonParse cleaned with
  | some v => some v
  | none =>
    match firstBalancedBraceSpan cleaned with
    | some span => jsonParse span
    | none => none

/-- The edit response parser as the claim describes it: the three-step
extraction, with the fallback exactly when extraction fails or the parsed
object lacks the required shape. -/
def claimedEditParse (language : String) (text : String) : Json :=
  match threeStepExtract text with
  | some v => if wellFormedFileAnalysis v then v else editFallback language
  | none => editFallback language

/-! Helper lemmas about line splitting and joining. -/

/-- Splitting never yields an empty list of lines. -/
lemma splitNl_ne_nil (cs : List Char) : splitNl cs ≠ [] := by
  cases cs with
  | nil => simp [splitNl]
  | cons c rest =>
    simp only [splitNl]
    split
    · simp
    · split
      · simp
      · simp

/-- Joining the split of a character list restores it. -/
lemma joinNl_splitNl (cs : List Char) : joinNl (splitNl cs) = cs := by
  induction cs with
  | nil => rfl
  | cons c rest ih =>
    obtain ⟨h0, t0, he⟩ : ∃ h0 t0, splitNl rest = h0 :: t0 := by
      cases hs : splitNl rest with
      | nil => exact absurd hs (splitNl_ne_nil rest)
      | cons a b => exact ⟨a, b, rfl⟩
    rw [he] at ih
    by_cases h : c = '\n'
    · subst h
      simp only [splitNl, if_pos rfl, he]
      show '\n' :: joinNl (h0 :: t0) = '\n' :: rest
      rw [ih]
    · simp only [splitNl, if_neg h, he]
      cases t0 with
      | nil =>
        show c :: h0 = c :: rest
        simp only [joinNl] at ih
        rw [ih]
      | cons x xs =>
        show (c :: h0) ++ '\n' :: joinNl (x :: xs) = c :: rest
        simp only [joinNl] at ih
        simp only [List.cons_append]
        rw [ih]

/-- Joining the split lines of a file's content restores the content. -/
lemma joinLines_splitLines (s : String) : joinLines (splitLines s) = s := by
  unfold joinLines splitLines
  rw [List.map_map]
  have hdm : (String.data ∘ String.mk) = id := by
    funext cs
    rfl
  rw [hdm, List.map_id, joinNl_splitNl]

/-! Helper lemmas about the applier's sort. -/

/-- The descending-order relation on suggestions used by the applier. -/
def DescBy (a b : EditSuggestion) : Prop := b.startLine ≤ a.startLine

/-- Inserting keeps all the elements, as a permutation with the new
element in front. -/
lemma insertDesc_perm (s : EditSuggestion) (l : List EditSuggestion) :
    (insertDesc s l).Perm (s :: l) := by
  induction l with
  | nil => exact List.Perm.refl _
  | cons t ts ih =>
    simp only [insertDesc]
    split
    · exact (List.Perm.cons t ih).trans (List.Perm.swap s t ts)
    · exact List.Perm.refl _

/-- The stable sort is a permutation of its input. -/
lemma sortDesc_perm (l : List EditSuggestion) : (sortDesc l).Perm l := by
  induction l with
  | nil => exact List.Perm.refl _
  | cons t ts ih =>
    exact (insertDesc_perm t (sortDesc ts)).trans (List.Perm.cons t ih)

/-- Inserting into a descending-sorted list keeps it sorted. -/
lemma insertDesc_pairwise (s : EditSuggestion) (l : List EditSuggestion)
    (h : l.Pairwise DescBy) : (insertDesc s l).Pairwise DescBy := by
  induction l with
  | nil => simp [insertDesc, DescBy]
  | cons t ts ih =>
    rw [List.pairwise_cons] at h
    simp only [insertDesc]
    split
    · rename_i hlt
      rw [List.pairwise_cons]
      refine ⟨?_, ih h.2⟩
      intro x hx
      have hx2 : x ∈ s :: ts := (insertDesc_perm s ts).mem_iff.mp hx
      rcases List.mem_cons.mp hx2 with hxe | hxm
      · subst hxe
        exact le_of_lt hlt
      · exact h.1 x hxm
    · rename_i hge
      rw [List.pairwise_cons]
      refine ⟨?_, List.pairwise_cons.mpr h⟩
      intro x hx
      rcases List.mem_cons.mp hx with hxe | hxm
      · subst hxe
        exact le_of_not_lt hge
      · exact le_trans (h.1 x hxm) (le_of_not_lt hge)

/-- The applier's sort yields a descending-sorted sequence. -/
lemma sortDesc_pairwise (l : List EditSuggestion) : (sortDesc l).Pairwise DescBy := by
  induction l with
  | nil => simp [sortDesc]
  | cons t ts ih =>
    exact insertDesc_pairwise t (sortDesc ts) ih

/-- Two descending-sorted lists that are permutations of each other and
have pairwise distinct start lines are equal. -/
lemma sorted_perm_eq_of_nodup_keys :
    ∀ l1 l2 : List EditSuggestion, l1.Perm l2 → l1.Pairwise DescBy → l2.Pairwise DescBy →
      (l1.map EditSuggestion.startLine).Nodup → l1 = l2 := by
  intro l1
  induction l1 with
  | nil =>
    intro l2 hp _ _ _
    exact (hp.symm.eq_nil).symm
  | cons a t1 ih =>
    intro l2 hp hs1 hs2 hnd
    cases l2 with
    | nil => exact absurd hp.eq_nil (by simp)
    | cons b t2 =>
      have hab : a = b := by
        have hbmem : b ∈ a :: t1 := hp.symm.subset (List.mem_cons_self b t2)
        have hamem : a ∈ b :: t2 := hp.subset (List.mem_cons_self a t1)
        rcases List.mem_cons.mp hbmem with hba | hbt1
        · exact hba.symm
        · rcases List.mem_cons.mp hamem with hab' | hat2
          · exact hab'
          · exfalso
            have h1 : b.startLine ≤ a.startLine :=
              (List.pairwise_cons.mp hs1).1 b hbt1
            have h2 : a.startLine ≤ b.startLine :=
              (List.pairwise_cons.mp hs2).1 a hat2
            have heq : a.startLine = b.startLine := le_antisymm h2 h1
            have : a.startLine ∈ t1.map EditSuggestion.startLine := by
              rw [heq]
              exact List.mem_map_of_mem EditSuggestion.startLine hbt1
            exact (List.nodup_cons.mp hnd).1 this
      subst hab
      have ht : t1 = t2 :=
        ih t2 hp.cons_inv (List.pairwise_cons.mp hs1).2 (List.pairwise_cons.mp hs2).2
          (List.nodup_cons.mp hnd).2
      rw [ht]

/-- The applier's step coincides with the specification's guarded
inclusive-range replacement. -/
lemma applyEditsStep_eq_claim (cur : List String) (s : EditSuggestion) :
    applyEditsStep cur s = claimReplaceStep cur s := by
  unfold applyEditsStep claimReplaceStep jsSplice
  by_cases h1 : 0 ≤ s.startLine - 1 ∧ s.endLine - 1 < (cur.length : Int) ∧
      s.startLine - 1 ≤ s.endLine - 1
  · rw [if_pos h1, if_pos ⟨h1.1, h1.2.2, h1.2.1⟩]
    have harith : (s.startLine - 1).toNat + (s.endLine - 1 - (s.startLine - 1) + 1).toNat =
        (s.endLine - 1).toNat + 1 := by
      omega
    rw [harith]
  · rw [if_neg h1, if_neg ?_]
    intro h2
    exact h1 ⟨h2.1, h2.2.2, h2.2.1⟩

/-! Claim theorems. -/

/-- C2: the applier processes the accepted suggestions in descending
startLine order (a permutation of the input, sorted descending), and each
step replaces the inclusive zero-based range of the current sequence with
the suggested lines exactly when the range fits the current bounds; a
suggestion failing the bounds check leaves the current sequence completely
unchanged. -/
theorem applyEdits_descending_guarded_replacement
    (lines : List String) (suggestions : List EditSuggestion) :
    applyEdits lines suggestions = joinLines ((sortDesc suggestions).foldl claimReplaceStep lines)
    ∧ (sortDesc suggestions).Pairwise DescBy
    ∧ (sortDesc suggestions).Perm suggestions
    ∧ (∀ cur s, ¬(0 ≤ s.startLine - 1 ∧ s.startLine - 1 ≤ s.endLine - 1 ∧
          s.endLine - 1 < (cur.length : Int)) → applyEditsStep cur s = cur) := by
  refine ⟨?_, sortDesc_pairwise suggestions, sortDesc_perm suggestions, ?_⟩
  · have hstep : applyEditsStep = claimReplaceStep :=
      funext fun cur => funext fun s => applyEditsStep_eq_claim cur s
    unfold applyEdits applyEditsLines
    rw [hstep]
  · intro cur s hno
    rw [applyEditsStep_eq_claim]
    unfold claimReplaceStep
    rw [if_neg hno]

/-- Witness for C2 at concrete inputs: an out-of-bounds suggestion is
skipped entirely, and the single-suggestion scenario of the specification
applies as described. -/
theorem applyEdits_descending_guarded_replacement_witness :
    applyEditsStep ["a"] ⟨["o"], ["X"], 0, 0, "r", 90⟩ = ["a"] ∧
    applyEdits ["a", "b", "c", "d"] [⟨["b", "c"], ["X"], 2, 3, "r", 90⟩] = "a\nX\nd" :=
  ⟨(applyEdits_descending_guarded_replacement [] []).2.2.2 ["a"] ⟨["o"], ["X"], 0, 0, "r", 90⟩
      (by decide),
   by rfl⟩

/-- C5: the validator returns exactly the order-preserving sublist of
suggestions with confidence at least seventy and non-empty original and
suggested line arrays, mutating nothing else. -/
theorem validateSuggestions_filter_spec (l : List EditSuggestion) :
    (validateSuggestions l).Sublist l
    ∧ ∀ s, s ∈ validateSuggestions l ↔
        s ∈ l ∧ 70 ≤ s.confidence ∧ s.originalLines ≠ [] ∧ s.suggestedLines ≠ [] := by
  constructor
  · exact List.filter_sublist l
  · intro s
    unfold validateSuggestions
    rw [List.mem_filter]
    simp [List.isEmpty_iff, and_assoc]

/-- Witness for C5 at the confidence boundary: the suggestion with
confidence sixty-nine is dropped and the one with confidence seventy is
retained. -/
theorem validateSuggestions_filter_spec_witness :
    (⟨["a"], ["b"], 1, 1, "r", 70⟩ : EditSuggestion) ∈
      validateSuggestions [⟨["a"], ["b"], 1, 1, "r", 69⟩, ⟨["a"], ["b"], 1, 1, "r", 70⟩]
    ∧ (⟨["a"], ["b"], 1, 1, "r", 69⟩ : EditSuggestion) ∉
      validateSuggestions [⟨["a"], ["b"], 1, 1, "r", 69⟩, ⟨["a"], ["b"], 1, 1, "r", 70⟩] := by
  have h := validateSuggestions_filter_spec
    [⟨["a"], ["b"], 1, 1, "r", 69⟩, ⟨["a"], ["b"], 1, 1, "r", 70⟩]
  constructor
  · exact (h.2 _).mpr ⟨by simp, by decide, by decide, by decide⟩
  · intro hmem
    exact absurd ((h.2 _).mp hmem).2.1 (by decide)

/-- C7: applying the empty suggestion list is the identity transform on
the line sequence, and joined back it equals the original content. -/
theorem applyEdits_empty_identity :
    (∀ lines, applyEditsLines lines [] = lines)
    ∧ (∀ content, applyEdits (splitLines content) [] = content) := by
  constructor
  · intro lines
    rfl
  · intro content
    show joinLines (applyEditsLines (splitLines content) []) = content
    exact joinLines_splitLines content

/-- C10: for an empty analysis batch the summary's averages are the
unguarded quotient of a zero-element sum by a zero count, which is not a
meaningful number (the none of the model, standing for the NaN the
JavaScript division produces), while the totals are zero and no error is
raised: the summary is still produced, and the batch loop itself succeeds
with an empty result list. -/
theorem displaySummary_empty_unguarded :
    displaySummary [] =
      { filesAnalyzed := 0, totalIssues := 0, totalSuggestions := 0,
        avgComplexity := none, avgMaintainability := none }
    ∧ ∀ fsys oracle full, analyzeCodebase fsys oracle full [] = Except.ok [] :=
  ⟨rfl, fun _ _ _ => rfl⟩

/-- Two suggestions address disjoint line ranges of the original file. -/
def rangesDisjoint (a b : EditSuggestion) : Prop :=
  a.endLine < b.startLine ∨ b.endLine < a.startLine

/-- A suggestion's one-based inclusive range fits the original line
sequence. -/
def validFor (lines : List String) (s : EditSuggestion) : Prop :=
  1 ≤ s.startLine ∧ s.startLine ≤ s.endLine ∧ s.endLine ≤ (lines.length : Int)

/-- C8: on valid, pairwise non-overlapping suggestions the applier is
independent of the input order — any permutation of the suggestion list
yields the same final content, because the descending sort rebuilds the
same processing sequence. -/
theorem applyEdits_perm_invariant (lines : List String) (S1 S2 : List EditSuggestion)
    (hperm : S1.Perm S2)
    (hval : ∀ s ∈ S1, validFor lines s)
    (hdisj : S1.Pairwise rangesDisjoint) :
    applyEdits lines S1 = applyEdits lines S2 := by
  have hne : S1.Pairwise (fun a b => a.startLine ≠ b.startLine) := by
    refine hdisj.imp_of_mem ?_
    intro a b ha hb hd
    have hva := hval a ha
    have hvb := hval b hb
    unfold validFor at hva hvb
    unfold rangesDisjoint at hd
    omega
  have hnd1 : (S1.map EditSuggestion.startLine).Nodup := List.pairwise_map.mpr hne
  have hsort : sortDesc S1 = sortDesc S2 := by
    refine sorted_perm_eq_of_nodup_keys (sortDesc S1) (sortDesc S2)
      ((sortDesc_perm S1).trans (hperm.trans (sortDesc_perm S2).symm))
      (sortDesc_pairwise S1) (sortDesc_pairwise S2) ?_
    exact (((sortDesc_perm S1).map EditSuggestion.startLine).nodup_iff).mpr hnd1
  unfold applyEdits applyEditsLines
  rw [hsort]

/-- Witness for C8: the two disjoint suggestions of the specification's
scenario give the same content in either order. -/
theorem applyEdits_perm_invariant_witness :
    applyEdits ["a", "b", "c", "d", "e"]
        [⟨["b"], ["B2"], 2, 2, "r", 90⟩, ⟨["d"], ["D2"], 4, 4, "r", 90⟩] =
      applyEdits ["a", "b", "c", "d", "e"]
        [⟨["d"], ["D2"], 4, 4, "r", 90⟩, ⟨["b"], ["B2"], 2, 2, "r", 90⟩]
    ∧ applyEdits ["a", "b", "c", "d", "e"]
        [⟨["b"], ["B2"], 2, 2, "r", 90⟩, ⟨["d"], ["D2"], 4, 4, "r", 90⟩] = "a\nB2\nc\nD2\ne" := by
  refine ⟨applyEdits_perm_invariant ["a", "b", "c", "d", "e"] _ _
    (List.Perm.swap (⟨["d"], ["D2"], 4, 4, "r", 90⟩ : EditSuggestion)
      (⟨["b"], ["B2"], 2, 2, "r", 90⟩ : EditSuggestion) [])
    ?_ ?_, by rfl⟩
  · intro s hs
    unfold validFor
    rcases List.mem_cons.mp hs with h | h
    · subst h
      exact ⟨by decide, by decide, by decide⟩
    · rcases List.mem_cons.mp h with h2 | h2
      · subst h2
        exact ⟨by decide, by decide, by decide⟩
      · exact absurd h2 (by simp)
  · refine List.pairwise_cons.mpr ⟨?_, List.pairwise_cons.mpr ⟨?_, List.Pairwise.nil⟩⟩
    · intro b hb
      rcases List.mem_cons.mp hb with h | h
      · subst h
        exact Or.inl (by decide)
      · exact absurd h (by simp)
    · intro b hb
      exact absurd hb (by simp)

/-- The backup path never collides with the edited file's own path. -/
lemma backupName_ne (filePath now : String) : backupName filePath now ≠ filePath := by
  intro h
  have hlen := congrArg String.length h
  have h8 : (".backup." : String).length = 8 := rfl
  rw [backupName, String.length_append, String.length_append, h8] at hlen
  omega

/-- C9: when the backup option is not explicitly disabled, the edit
command's trace starts by reading the file and immediately writing the
backup copy of the original content — before the oracle is consulted and
before any decision to apply; and the original path is not written in dry
run, when no suggestions survive, or when the user rejects without
auto-apply, so the original file is never overwritten without the prior
backup. -/
theorem handleEdit_backup_before_everything
    (filePath content : String) (opts : EditOptions) (now : String)
    (analysis : FileAnalysis) (userAccepts : Bool)
    (hb : opts.backup ≠ some false) :
    (handleEditCommand filePath (some content) opts now analysis userAccepts =
      FsEvent.readFile filePath :: FsEvent.writeFile (backupName filePath now) content ::
        FsEvent.oracleCall :: editTail filePath content opts analysis userAccepts)
    ∧ backupName filePath now ≠ filePath
    ∧ (opts.dryRun = some true →
        ∀ c, FsEvent.writeFile filePath c ∉
          handleEditCommand filePath (some content) opts now analysis userAccepts)
    ∧ (analysis.suggestions = [] →
        ∀ c, FsEvent.writeFile filePath c ∉
          handleEditCommand filePath (some content) opts now analysis userAccepts)
    ∧ (opts.autoApply ≠ some true → userAccepts = false →
        ∀ c, FsEvent.writeFile filePath c ∉
          handleEditCommand filePath (some content) opts now analysis userAccepts) := by
  have hbn := backupName_ne filePath now
  have htr : handleEditCommand filePath (some content) opts now analysis userAccepts =
      FsEvent.readFile filePath :: FsEvent.writeFile (backupName filePath now) content ::
        FsEvent.oracleCall :: editTail filePath content opts analysis userAccepts := by
    show ([FsEvent.readFile filePath] ++
        (if opts.backup ≠ some false then [FsEvent.writeFile (backupName filePath now) content]
         else []) ++
        [FsEvent.oracleCall] ++ editTail filePath content opts analysis userAccepts) = _
    rw [if_pos hb]
    rfl
  have hhead : ∀ c, FsEvent.writeFile filePath c ∉
      [FsEvent.readFile filePath, FsEvent.writeFile (backupName filePath now) content,
        FsEvent.oracleCall] := by
    intro c hmem
    rcases List.mem_cons.mp hmem with h | h
    · exact FsEvent.noConfusion h
    · rcases List.mem_cons.mp h with h2 | h2
      · have := (FsEvent.writeFile.injEq _ _ _ _).mp h2
        exact hbn this.1.symm
      · rcases List.mem_cons.mp h2 with h3 | h3
        · exact FsEvent.noConfusion h3
        · exact absurd h3 (by simp)
  refine ⟨htr, hbn, ?_, ?_, ?_⟩
  · intro hdry c hmem
    rw [htr] at hmem
    unfold editTail at hmem
    by_cases he : analysis.suggestions = []
    · rw [if_pos he] at hmem
      exact hhead c hmem
    · rw [if_neg he, if_pos hdry] at hmem
      exact hhead c hmem
  · intro he c hmem
    rw [htr] at hmem
    unfold editTail at hmem
    rw [if_pos he] at hmem
    exact hhead c hmem
  · intro hauto hrej c hmem
    rw [htr] at hmem
    unfold editTail at hmem
    by_cases he : analysis.suggestions = []
    · rw [if_pos he] at hmem
      exact hhead c hmem
    · rw [if_neg he] at hmem
      by_cases hdry : opts.dryRun = some true
      · rw [if_pos hdry] at hmem
        exact hhead c hmem
      · have hcne : ¬((decide (opts.autoApply = some true) || userAccepts) = true) := by
          rw [hrej, decide_eq_false hauto]
          simp
        rw [if_neg hdry, if_neg hauto, if_neg hcne] at hmem
        simp only [List.append_nil] at hmem
        rcases List.mem_cons.mp hmem with h | h
        · exact FsEvent.noConfusion h
        · rcases List.mem_cons.mp h with h2 | h2
          · have := (FsEvent.writeFile.injEq _ _ _ _).mp h2
            exact hbn this.1.symm
          · rcases List.mem_cons.mp h2 with h3 | h3
            · exact FsEvent.noConfusion h3
            · rcases List.mem_cons.mp h3 with h4 | h4
              · exact FsEvent.noConfusion h4
              · exact absurd h4 (by simp)

/-- Witness for C9 at concrete inputs: with default options the trace is
exactly read, backup write, oracle call, and the original path is never
written when no suggestions survive. -/
theorem handleEdit_backup_before_everything_witness :
    handleEditCommand "a.ts" (some "x") ⟨none, none, none⟩ "7"
        ⟨"typescript", 3, [], [], []⟩ false =
      [FsEvent.readFile "a.ts", FsEvent.writeFile "a.ts.backup.7" "x", FsEvent.oracleCall]
    ∧ ∀ c, FsEvent.writeFile "a.ts" c ∉
        handleEditCommand "a.ts" (some "x") ⟨none, none, none⟩ "7"
          ⟨"typescript", 3, [], [], []⟩ false := by
  have h := handleEdit_backup_before_everything "a.ts" "x" ⟨none, none, none⟩ "7"
    ⟨"typescript", 3, [], [], []⟩ false (by decide)
  refine ⟨?_, h.2.2.2.1 rfl⟩
  rw [h.1]
  rfl

/-- Counterexample to C1 at a concrete input: the content read of
analyzeFile happens before its try block, so one unreadable file does not
become a neutral-metrics result — it aborts the whole batch, which
returns the read error instead of a result list. -/
theorem analyzeCodebase_read_failure_aborts :
    analyzeCodebase (fun p => if p = "ok.ts" then some "x" else none)
        (fun _ => Except.error ()) false ["ok.ts", "missing.ts"] = Except.error ()
    ∧ analyzeFile (fun p => if p = "ok.ts" then some "x" else none)
        (fun _ => Except.error ()) "missing.ts" false = Except.error () :=
  ⟨rfl, rfl⟩

/-- A file whose content is readable always produces a result, whatever
the oracle does. -/
lemma analyzeFile_ok_of_readable (fsys : String → Option String)
    (oracle : String → Except Unit (Option String)) (f : String) (full : Bool)
    (content : String) (hc : fsys f = some content) :
    ∃ r, analyzeFile fsys oracle f full = Except.ok r := by
  unfold analyzeFile
  rw [hc]
  show ∃ r, (match oracle (createAnalysisPrompt content (extname f) full) with
    | Except.error _ => Except.ok (neutralResult f)
    | Except.ok none => Except.ok (neutralResult f)
    | Except.ok (some text) => Except.ok (parseAnalysisResponse text f)) = Except.ok r
  rcases oracle (createAnalysisPrompt content (extname f) full) with _ | oo
  · exact ⟨_, rfl⟩
  · cases oo
    · exact ⟨_, rfl⟩
    · exact ⟨_, rfl⟩

/-- C1 (amended): a per-file failure inside the try block of analyzeFile
never aborts the batch — a failed oracle call or a response without text
is converted into the neutral-metrics result with empty issues and
suggestions for that file only, while a response text that is present is
handed to the response parser, which on unparseable text yields its own
per-file fallback (the single documentation suggestion with metrics five
and seventy) — and a batch whose files all have readable content always
completes with one result per file; but a failure to read a file's
content is not caught (see the counterexample): the read happens before
the try block and aborts the batch. -/
theorem analyzeCodebase_oracle_failures_contained (fsys : String → Option String)
    (oracle : String → Except Unit (Option String)) (full : Bool) :
    (∀ files, (∀ f ∈ files, fsys f ≠ none) →
      ∃ rs, analyzeCodebase fsys oracle full files = Except.ok rs ∧ rs.length = files.length)
    ∧ (∀ f content, fsys f = some content →
        (oracle (createAnalysisPrompt content (extname f) full) = Except.error () ∨
          oracle (createAnalysisPrompt content (extname f) full) = Except.ok none) →
        analyzeFile fsys oracle f full = Except.ok (neutralResult f))
    ∧ (∀ f content text, fsys f = some content →
        oracle (createAnalysisPrompt content (extname f) full) = Except.ok (some text) →
        analyzeFile fsys oracle f full = Except.ok (parseAnalysisResponse text f)
        ∧ (jsonParse (qualityJsonText text) = none →
            analyzeFile fsys oracle f full = Except.ok (qualityFallback f))) := by
  refine ⟨?_, ?_, ?_⟩
  · intro files
    induction files with
    | nil => exact fun _ => ⟨[], rfl, rfl⟩
    | cons f fs ih =>
      intro hall
      obtain ⟨content, hc⟩ :=
        Option.ne_none_iff_exists'.mp (hall f (List.mem_cons_self f fs))
      obtain ⟨r, hr⟩ := analyzeFile_ok_of_readable fsys oracle f full content hc
      obtain ⟨rs, hrs, hlen⟩ := ih (fun g hg => hall g (List.mem_cons_of_mem f hg))
      refine ⟨r :: rs, ?_, by simp [hlen]⟩
      unfold analyzeCodebase
      rw [hr, hrs]
  · intro f content hc hfail
    unfold analyzeFile
    rw [hc]
    show (match oracle (createAnalysisPrompt content (extname f) full) with
      | Except.error _ => Except.ok (neutralResult f)
      | Except.ok none => Except.ok (neutralResult f)
      | Except.ok (some text) => Except.ok (parseAnalysisResponse text f)) =
        Except.ok (neutralResult f)
    rcases hfail with ho | ho
    · rw [ho]
    · rw [ho]
  · intro f content text hc ho
    have hbase : analyzeFile fsys oracle f full = Except.ok (parseAnalysisResponse text f) := by
      unfold analyzeFile
      rw [hc]
      show (match oracle (createAnalysisPrompt content (extname f) full) with
        | Except.error _ => Except.ok (neutralResult f)
        | Except.ok none => Except.ok (neutralResult f)
        | Except.ok (some text2) => Except.ok (parseAnalysisResponse text2 f)) =
          Except.ok (parseAnalysisResponse text f)
      rw [ho]
    refine ⟨hbase, ?_⟩
    intro hp
    rw [hbase]
    unfold parseAnalysisResponse
    rw [hp]

/-- Witness for C1 at concrete inputs: two readable files under an oracle
that always fails still give a completed batch of two results, the
failing file's analysis is exactly the neutral result, and a file whose
oracle answers with unparseable text gets the response parser's own
fallback instead. -/
theorem analyzeCodebase_oracle_failures_contained_witness :
    (∃ rs, analyzeCodebase (fun _ => some "x") (fun _ => Except.error ()) false
        ["a.ts", "b.ts"] = Except.ok rs ∧ rs.length = 2)
    ∧ analyzeFile (fun _ => some "x") (fun _ => Except.error ()) "a.ts" false =
        Except.ok (neutralResult "a.ts")
    ∧ analyzeFile (fun _ => some "x") (fun _ => Except.ok (some "zz")) "a.ts" false =
        Except.ok (qualityFallback "a.ts") := by
  have h := analyzeCodebase_oracle_failures_contained
    (fun _ => some "x") (fun _ => Except.error ()) false
  have h2 := analyzeCodebase_oracle_failures_contained
    (fun _ => some "x") (fun _ => Except.ok (some "zz")) false
  exact ⟨h.1 ["a.ts", "b.ts"] (by intro f hf; simp),
    h.2.1 "a.ts" "x" rfl (Or.inl rfl),
    (h2.2.2 "a.ts" "x" "zz" rfl rfl).2 rfl⟩

/-- A response carrying clean issue and suggestion arrays and numeric
metrics, used by the aggregation counterexample. -/
def goodMetricsText : String :=
  "\x7b\"issues\":[],\"suggestions\":[],\"metrics\":\x7b\"complexity\":10,\"maintainabilityIndex\":100,\"performance\":\"good\",\"security\":\"secure\"\x7d\x7d"

set_option maxRecDepth 8192 in
/-- Counterexample to C4 at a concrete input: in a batch of two results
where one file's oracle call failed and received the placeholder metrics
(complexity zero) and the other was analyzed with complexity ten, the
reported average complexity is five — the mean over all results — not
ten, the mean over the successfully analyzed files only, so failed files
are not excluded from the averages. -/
theorem displaySummary_counts_failed_files_cex :
    analyzeFile (fun _ => some "G") (fun _ => Except.ok (some goodMetricsText)) "good.ts" false =
      Except.ok (parseAnalysisResponse goodMetricsText "good.ts")
    ∧ analyzeFile (fun _ => some "B") (fun _ => Except.error ()) "bad.ts" false =
        Except.ok (neutralResult "bad.ts")
    ∧ metricContribution (parseAnalysisResponse goodMetricsText "good.ts").metrics
        "complexity" = some 10
    ∧ metricContribution (neutralResult "bad.ts").metrics "complexity" = some 0
    ∧ (displaySummary
        [parseAnalysisResponse goodMetricsText "good.ts", neutralResult "bad.ts"]).avgComplexity =
        some 5
    ∧ ¬((5 : Rat) = 10) := by
  refine ⟨rfl, rfl, rfl, rfl, ?_, by norm_num⟩
  have h1 : (displaySummary
      [parseAnalysisResponse goodMetricsText "good.ts", neutralResult "bad.ts"]).avgComplexity =
      some ((((0 : Rat) + 10) + 0) / ((2 : Nat) : Rat)) := rfl
  rw [h1]
  norm_num

/-- Accumulating counts over the per-file loop is summation over the
result list. -/
lemma foldl_add_nat (f : AnalysisResult → Nat) :
    ∀ (results : List AnalysisResult) (init : Nat),
      results.foldl (fun acc r => acc + f r) init = init + (results.map f).sum := by
  intro results
  induction results with
  | nil =>
    intro init
    simp
  | cons r rs ih =>
    intro init
    rw [List.foldl_cons, ih, List.map_cons, List.sum_cons]
    omega

/-- Reducing NaN-propagating additions over defined values is summation
over the result list. -/
lemma foldl_optAdd (g : AnalysisResult → Option Rat) :
    ∀ (results : List AnalysisResult) (init : Rat),
      (∀ r ∈ results, ∃ q, g r = some q) →
      results.foldl (fun acc r => optAdd acc (g r)) (some init) =
        some (init + (results.map (fun r => (g r).getD 0)).sum) := by
  intro results
  induction results with
  | nil =>
    intro init _
    simp
  | cons r rs ih =>
    intro init hall
    obtain ⟨q, hq⟩ := hall r (List.mem_cons_self r rs)
    have h1 : optAdd (some init) (g r) = some (init + q) := by
      rw [hq]
      rfl
    rw [List.foldl_cons, h1, ih (init + q) (fun x hx => hall x (List.mem_cons_of_mem r hx)),
      List.map_cons, List.sum_cons, hq]
    simp [add_assoc]

/-- C4 (amended): the summary reports the issue and suggestion totals
summed over all results (an issue or suggestion member contributes its
array length), and the averages of complexity and maintainabilityIndex
are the arithmetic means over all results — failed files with placeholder
metrics included, not excluded (see the counterexample). -/
theorem displaySummary_aggregates_all_results (results : List AnalysisResult) :
    (displaySummary results).filesAnalyzed = results.length
    ∧ (displaySummary results).totalIssues =
        (results.map (fun r => lenContribution r.issues)).sum
    ∧ (displaySummary results).totalSuggestions =
        (results.map (fun r => lenContribution r.suggestions)).sum
    ∧ (∀ l, lenContribution (Json.arr l) = l.length)
    ∧ ((∀ r ∈ results, ∃ q, metricContribution r.metrics "complexity" = some q) →
        results ≠ [] →
        (displaySummary results).avgComplexity =
          some ((results.map (fun r => (metricContribution r.metrics "complexity").getD 0)).sum /
            (results.length : Rat)))
    ∧ ((∀ r ∈ results, ∃ q, metricContribution r.metrics "maintainabilityIndex" = some q) →
        results ≠ [] →
        (displaySummary results).avgMaintainability =
          some ((results.map
              (fun r => (metricContribution r.metrics "maintainabilityIndex").getD 0)).sum /
            (results.length : Rat))) := by
  refine ⟨rfl, ?_, ?_, ?_, ?_, ?_⟩
  · show results.foldl (fun acc r => acc + lenContribution r.issues) 0 = _
    rw [foldl_add_nat (fun r => lenContribution r.issues) results 0]
    omega
  · show results.foldl (fun acc r => acc + lenContribution r.suggestions) 0 = _
    rw [foldl_add_nat (fun r => lenContribution r.suggestions) results 0]
    omega
  · intro l
    show (if 0 < l.length then l.length else 0) = l.length
    split_ifs with h
    · rfl
    · omega
  · intro hall hne
    show jsDivLen
      (results.foldl (fun acc r => optAdd acc (metricContribution r.metrics "complexity"))
        (some 0)) results.length = _
    rw [foldl_optAdd (fun r => metricContribution r.metrics "complexity") results 0 hall]
    show (if results.length = 0 then none else
      some ((0 + (results.map
        (fun r => (metricContribution r.metrics "complexity").getD 0)).sum) /
          (results.length : Rat))) = _
    rw [if_neg (fun h0 => hne (List.length_eq_zero.mp h0)), zero_add]
  · intro hall hne
    show jsDivLen
      (results.foldl
        (fun acc r => optAdd acc (metricContribution r.metrics "maintainabilityIndex"))
        (some 0)) results.length = _
    rw [foldl_optAdd (fun r => metricContribution r.metrics "maintainabilityIndex") results 0 hall]
    show (if results.length = 0 then none else
      some ((0 + (results.map
        (fun r => (metricContribution r.metrics "maintainabilityIndex").getD 0)).sum) /
          (results.length : Rat))) = _
    rw [if_neg (fun h0 => hne (List.length_eq_zero.mp h0)), zero_add]

/-- Witness for C4 at concrete inputs: two placeholder results average to
complexity zero and maintainability fifty, both computed over all
results. -/
theorem displaySummary_aggregates_all_results_witness :
    (displaySummary [neutralResult "a.ts", neutralResult "b.ts"]).avgComplexity = some 0
    ∧ (displaySummary [neutralResult "a.ts", neutralResult "b.ts"]).avgMaintainability =
        some 50 := by
  have h := displaySummary_aggregates_all_results [neutralResult "a.ts", neutralResult "b.ts"]
  have hallc : ∀ r ∈ [neutralResult "a.ts", neutralResult "b.ts"],
      ∃ q, metricContribution r.metrics "complexity" = some q := by
    intro r hr
    rcases List.mem_cons.mp hr with h1 | h1
    · exact ⟨0, by rw [h1]; rfl⟩
    · rcases List.mem_cons.mp h1 with h2 | h2
      · exact ⟨0, by rw [h2]; rfl⟩
      · exact absurd h2 (by simp)
  have hallm : ∀ r ∈ [neutralResult "a.ts", neutralResult "b.ts"],
      ∃ q, metricContribution r.metrics "maintainabilityIndex" = some q := by
    intro r hr
    rcases List.mem_cons.mp hr with h1 | h1
    · exact ⟨50, by rw [h1]; rfl⟩
    · rcases List.mem_cons.mp h1 with h2 | h2
      · exact ⟨50, by rw [h2]; rfl⟩
      · exact absurd h2 (by simp)
  have hlen : ([neutralResult "a.ts", neutralResult "b.ts"].length : Nat) = 2 := rfl
  constructor
  · rw [h.2.2.2.2.1 hallc (by simp)]
    have h2 : (List.map (fun r => (metricContribution r.metrics "complexity").getD 0)
        [neutralResult "a.ts", neutralResult "b.ts"]).sum = ((0 : Rat) + (0 + 0)) := rfl
    rw [h2, hlen]
    norm_num
  · rw [h.2.2.2.2.2 hallm (by simp)]
    have h2 : (List.map (fun r => (metricContribution r.metrics "maintainabilityIndex").getD 0)
        [neutralResult "a.ts", neutralResult "b.ts"]).sum = ((50 : Rat) + (50 + 0)) := rfl
    rw [h2, hlen]
    norm_num

/-- An oracle response wrapping a complete, well-shaped analysis object in
prose, used by the parser counterexample. -/
def proseWrappedAnalysis : String :=
  "Here is the analysis: \x7b\"language\":\"typescript\",\"complexity\":3,\"suggestions\":[],\"risks\":[],\"dependencies\":[]\x7d"

set_option maxRecDepth 8192 in
/-- Counterexample to C3 at a concrete input: on a response whose full
text fails to parse but which contains a perfectly well-shaped first
balanced brace span, the edit parser returns the fallback — it never
attempts the claimed balanced-span extraction, which would have returned
the embedded object (risk lists differ, so the results differ). -/
theorem editParse_skips_balanced_span_cex :
    analyzeEditResult "typescript" (Except.ok (some proseWrappedAnalysis)) =
      editFallback "typescript"
    ∧ claimedEditParse "typescript" proseWrappedAnalysis =
        Json.obj
          [("language", Json.str "typescript"), ("complexity", Json.num 3),
           ("suggestions", Json.arr []), ("risks", Json.arr []),
           ("dependencies", Json.arr [])]
    ∧ jsonFieldOf (claimedEditParse "typescript" proseWrappedAnalysis) "risks" =
        some (Json.arr [])
    ∧ jsonFieldOf (editFallback "typescript") "risks" =
        some (Json.arr [Json.str "Analysis failed - manual review recommended"])
    ∧ Json.arr [] ≠ Json.arr [Json.str "Analysis failed - manual review recommended"] := by
  refine ⟨rfl, rfl, rfl, rfl, ?_⟩
  simp

/-- A failed whole-text parse goes straight to the fallback. -/
lemma editParseText_parse_failed (lang text : String)
    (h : jsonParse (jsTrim (stripFences text)) = none) :
    editParseText lang text = editFallback lang := by
  unfold editParseText
  rw [h]

/-- A successful whole-text parse continues with the filter stage. -/
lemma editParseText_parsed (lang text : String) (parsed : Json)
    (h : jsonParse (jsTrim (stripFences text)) = some parsed) :
    editParseText lang text = editParseStage2 lang parsed := by
  unfold editParseText
  rw [h]

/-- When the suggestions member is readable and filterable, the stage
returns the parsed object with the member replaced in place. -/
lemma editParseStage2_filtered (lang : String) (parsed : Json) (sv : Option Json) (fl : Json)
    (hm : jsMember (some parsed) "suggestions" = Except.ok sv)
    (hf : filterSuggestions sv = Except.ok fl) :
    editParseStage2 lang parsed = jsSetField parsed "suggestions" fl := by
  unfold editParseStage2
  rw [hm]
  show (match filterSuggestions sv with
    | Except.error _ => editFallback lang
    | Except.ok filtered => jsSetField parsed "suggestions" filtered) = _
  rw [hf]

/-- C3 (amended): the edit parser strips code fences, trims, and parses
the whole cleaned text, going straight to the fallback on failure and
otherwise only filtering the suggestions member in place; the quality
parser parses the greedy first-to-last brace span (or the whole response)
and falls back on failure; neither parser attempts the balanced-span
retry the claim describes (see the counterexample). -/
theorem responseParsers_no_balanced_retry (lang text resp f : String) :
    (analyzeEditResult lang (Except.error ()) = editFallback lang)
    ∧ (analyzeEditResult lang (Except.ok none) = editFallback lang)
    ∧ (jsonParse (jsTrim (stripFences text)) = none →
        analyzeEditResult lang (Except.ok (some text)) = editFallback lang)
    ∧ (∀ parsed sv fl, jsonParse (jsTrim (stripFences text)) = some parsed →
        jsMember (some parsed) "suggestions" = Except.ok sv →
        filterSuggestions sv = Except.ok fl →
        analyzeEditResult lang (Except.ok (some text)) = jsSetField parsed "suggestions" fl)
    ∧ (jsonParse (qualityJsonText resp) = none →
        parseAnalysisResponse resp f = qualityFallback f) := by
  refine ⟨rfl, rfl, ?_, ?_, ?_⟩
  · intro h
    show editParseText lang text = editFallback lang
    exact editParseText_parse_failed lang text h
  · intro parsed sv fl hp hm hf
    show editParseText lang text = _
    rw [editParseText_parsed lang text parsed hp]
    exact editParseStage2_filtered lang parsed sv fl hm hf
  · intro h
    unfold parseAnalysisResponse
    rw [h]

/-- Witness for C3 at concrete inputs: unparseable texts land in the
documented fallbacks of both parsers. -/
theorem responseParsers_no_balanced_retry_witness :
    analyzeEditResult "ts" (Except.ok (some "xyz")) = editFallback "ts"
    ∧ parseAnalysisResponse "zz" "f.ts" = qualityFallback "f.ts" :=
  ⟨(responseParsers_no_balanced_retry "ts" "xyz" "zz" "f.ts").2.2.1 rfl,
   (responseParsers_no_balanced_retry "ts" "xyz" "zz" "f.ts").2.2.2.2 rfl⟩

/-- A response that parses but carries only a suggestions member, used by
the well-formedness counterexample. -/
def bareSuggestionsText : String := "\x7b\"suggestions\": []\x7d"

/-- Counterexample to C6 at a concrete input: on an oracle success whose
object parses and has an (empty) suggestions array but none of the other
required fields, the edit parser returns that bare object unchanged — a
result that is not the documented fallback and not a well-formed
FileAnalysis (it has no risks member at all). -/
theorem editParse_not_always_well_formed_cex :
    analyzeEditResult "typescript" (Except.ok (some bareSuggestionsText)) =
      Json.obj [("suggestions", Json.arr [])]
    ∧ wellFormedFileAnalysis (Json.obj [("suggestions", Json.arr [])]) = false
    ∧ jsonFieldOf (Json.obj [("suggestions", Json.arr [])]) "risks" = none
    ∧ wellFormedFileAnalysis (editFallback "typescript") = true :=
  ⟨rfl, rfl, rfl, rfl⟩

/-- C6 (amended): neither parser raises past its boundary — the edit
parser maps an oracle failure, a missing response text or an unparseable
text to the documented fallback, whose shape is exactly the documented
one (language, complexity five, no suggestions, the single manual-review
risk, no dependencies); the quality parser always returns a result for
the given file and maps a parse failure to the documented single
documentation suggestion at line one with neutral metrics; but a
successfully parsed object is returned with only its suggestions filtered
and may lack required fields (see the counterexample). -/
theorem responseParsers_degrade_dont_fail (lang text resp f : String) :
    (jsonFieldOf (editFallback lang) "language" = some (Json.str lang))
    ∧ (jsonFieldOf (editFallback lang) "complexity" = some (Json.num 5))
    ∧ (jsonFieldOf (editFallback lang) "suggestions" = some (Json.arr []))
    ∧ (jsonFieldOf (editFallback lang) "risks" =
        some (Json.arr [Json.str "Analysis failed - manual review recommended"]))
    ∧ (jsonFieldOf (editFallback lang) "dependencies" = some (Json.arr []))
    ∧ (wellFormedFileAnalysis (editFallback lang) = true)
    ∧ (analyzeEditResult lang (Except.error ()) = editFallback lang)
    ∧ (analyzeEditResult lang (Except.ok none) = editFallback lang)
    ∧ (jsonParse (jsTrim (stripFences text)) = none →
        analyzeEditResult lang (Except.ok (some text)) = editFallback lang)
    ∧ ((parseAnalysisResponse resp f).file = f)
    ∧ (jsonParse (qualityJsonText resp) = none →
        parseAnalysisResponse resp f = qualityFallback f)
    ∧ ((qualityFallback f).issues = Json.arr [])
    ∧ ((qualityFallback f).suggestions = Json.arr
        [Json.obj [("line", Json.num 1), ("type", Json.str "documentation"),
          ("description", Json.str "Consider adding comprehensive documentation for this code")]])
    ∧ ((qualityFallback f).metrics = defaultMetrics) := by
  refine ⟨rfl, rfl, rfl, rfl, rfl, rfl, rfl, rfl, ?_, ?_, ?_, rfl, rfl, rfl⟩
  · intro h
    show editParseText lang text = editFallback lang
    exact editParseText_parse_failed lang text h
  · unfold parseAnalysisResponse
    cases hj : jsonParse (qualityJsonText resp) with
    | none => rfl
    | some j => cases j <;> rfl
  · intro h
    unfold parseAnalysisResponse
    rw [h]

/-- Witness for C6 at concrete inputs: a non-JSON string never raises and
yields the documented fallback in both parsers. -/
theorem responseParsers_degrade_dont_fail_witness :
    analyzeEditResult "go" (Except.ok (some "not json")) = editFallback "go"
    ∧ parseAnalysisResponse "plain text" "g.ts" = qualityFallback "g.ts" := by
  obtain ⟨_, _, _, _, _, _, _, _, h9, _, h11, _⟩ :=
    responseParsers_degrade_dont_fail "go" "not json" "plain text" "g.ts"
  exact ⟨h9 rfl, h11 rfl⟩

end GeminiCli
